import Mathlib

/-!
Verification of the comfyui-generator extension (src/index.js).

This file shallowly embeds the data model and the operations of the
extension and proves properties about them:

* the workflow template engine (`replaceInObject`, src/index.js 1501-1515),
  both as a pure tree transformer and as a heap transformer that makes the
  allocation behaviour explicit;
* the workflow validator (`validateWorkflowJson`, src/index.js 563-633)
  together with a model of `JSON.parse`;
* the image record store (`saveGeneratedImage`, src/index.js 58-96, and
  `deleteImageEntry`, src/index.js 103-120);
* the per-job WebSocket channel (`connectWebSocket`, src/index.js 180-235)
  as a step function on the registry of open connections;
* the restoration delays of `restoreStoredImages` (src/index.js 826-867).

JavaScript strings are modelled as Lean `String`, machine timestamps and
array indices as `Nat`/`Int`, and fallible operations as `Option`.
Recursions that walk an object graph take an explicit fuel argument; the
fuel only bounds the recursion depth (the JavaScript recursion likewise
diverges on cyclic graphs, which never arise from `JSON.parse`).
-/

/-- A JavaScript value as produced by `JSON.parse`: the tree shape the
workflow template engine operates on.  Numbers are carried as their source
numeral (their numeric value plays no role in any property below). -/
inductive JVal where
  | jnull : JVal
  | jbool : Bool → JVal
  | jnum : String → JVal
  | jstr : String → JVal
  | jarr : List JVal → JVal
  | jobj : List (String × JVal) → JVal
deriving Repr

/-- The `GetSubstitution` abstract operation behind
`String.prototype.replace` with a string replacement, for a capture-free
pattern (every pattern of the source is either a regexp-escaped literal or
a group-free character-class pattern): a doubled dollar sign yields one
dollar sign, a dollar sign before an ampersand yields the matched text,
before a backquote (code 96) the part of the subject preceding the match,
before an apostrophe (code 39) the part following it; any other dollar
sequence — including `$1`..`$9`, which name absent capture groups —
passes through literally. -/
def getSubstitution (matched before after : List Char) : List Char → List Char
  | [] => []
  | c :: rest =>
    if c = '$' then
      match rest with
      | [] => ['$']
      | d :: rest2 =>
        if d = '$' then '$' :: getSubstitution matched before after rest2
        else if d = '&' then matched ++ getSubstitution matched before after rest2
        else if d = Char.ofNat 96 then before ++ getSubstitution matched before after rest2
        else if d = Char.ofNat 39 then after ++ getSubstitution matched before after rest2
        else '$' :: d :: getSubstitution matched before after rest2
    else c :: getSubstitution matched before after rest

/-- One left-to-right pass of `String.prototype.replace` with a
regexp-escaped pattern `p :: ps` and the `g` flag (src/index.js 1504): at
each position either consume a full match — emitting the
`GetSubstitution` expansion of the replacement template `v` for the
matched text, the already-scanned prefix `pre` and the remaining tail —
or emit one character and move on.  The fuel is initialised with the
length of the subject, which every call site supplies; one unit is spent
per emitted character or match, so it never runs out. -/
def replAllAux (p : Char) (ps v : List Char) : Nat → List Char → List Char → List Char
  | _, _, [] => []
  | 0, _, s => s
  | fuel + 1, pre, c :: rest =>
    if (p :: ps).isPrefixOf (c :: rest) then
      getSubstitution (p :: ps) pre (rest.drop ps.length) v
        ++ replAllAux p ps v fuel (pre ++ (p :: ps)) (rest.drop ps.length)
    else
      c :: replAllAux p ps v fuel (pre ++ [c]) rest

/-- Replacement text inserted for an empty pattern, which matches the
empty string at every boundary of the subject. -/
def emptyPatInsert (v : List Char) : List Char → List Char → List Char
  | pre, [] => getSubstitution [] pre [] v
  | pre, c :: rest =>
    getSubstitution [] pre (c :: rest) v ++ c :: emptyPatInsert v (pre ++ [c]) rest

/-- `s.replace(new RegExp(escape(ph), 'g'), v)` for a literal pattern
(src/index.js 1504), with the `GetSubstitution` semantics of a string
replacement.  An empty pattern makes the regexp match the empty string at
every position, so the expansion is inserted at every boundary; the fill
path never produces that case because the placeholder setting falls back
to `%positive%` when empty (src/index.js 1492). -/
def jsReplaceAll (s ph v : String) : String :=
  match ph.data with
  | [] => ⟨emptyPatInsert v.data [] s.data⟩
  | p :: ps => ⟨replAllAux p ps v.data s.data.length [] s.data⟩

mutual

/-- The recursive placeholder substitution of the template engine
(`replaceInObject`, src/index.js 1501-1515): strings get a global literal
replacement, arrays are rebuilt element-wise via `map`, objects are
rebuilt field-wise into a fresh object, and every other value is returned
unchanged. -/
def replaceInObject : JVal → String → String → JVal
  | JVal.jstr s, ph, v => JVal.jstr (jsReplaceAll s ph v)
  | JVal.jarr l, ph, v => JVal.jarr (replaceInArr l ph v)
  | JVal.jobj fs, ph, v => JVal.jobj (replaceInFields fs ph v)
  | other, _, _ => other

/-- Element-wise substitution for array nodes (the `obj.map` branch of
src/index.js 1506). -/
def replaceInArr : List JVal → String → String → List JVal
  | [], _, _ => []
  | x :: xs, ph, v => replaceInObject x ph v :: replaceInArr xs ph v

/-- Field-wise substitution for object nodes (the `Object.entries` loop of
src/index.js 1508-1511). -/
def replaceInFields : List (String × JVal) → String → String → List (String × JVal)
  | [], _, _ => []
  | (k, x) :: xs, ph, v => (k, replaceInObject x ph v) :: replaceInFields xs ph v

end

mutual

/-- Erase every string payload of a tree, keeping everything else.  Two
trees with the same erasure agree on their entire structure and on every
non-string leaf. -/
def eraseStrings : JVal → JVal
  | JVal.jstr _ => JVal.jstr ""
  | JVal.jarr l => JVal.jarr (eraseStringsArr l)
  | JVal.jobj fs => JVal.jobj (eraseStringsFields fs)
  | other => other

/-- Erasure of string payloads, element-wise on arrays. -/
def eraseStringsArr : List JVal → List JVal
  | [] => []
  | x :: xs => eraseStrings x :: eraseStringsArr xs

/-- Erasure of string payloads, field-wise on objects. -/
def eraseStringsFields : List (String × JVal) → List (String × JVal)
  | [] => []
  | (k, x) :: xs => (k, eraseStrings x) :: eraseStringsFields xs

end

mutual

/-- Substitution does not disturb anything but string payloads: the
erasures of a tree before and after `replaceInObject` coincide. -/
def eraseStrings_replaceInObject : (obj : JVal) → (ph v : String) →
    eraseStrings (replaceInObject obj ph v) = eraseStrings obj
  | JVal.jnull, _, _ => rfl
  | JVal.jbool _, _, _ => rfl
  | JVal.jnum _, _, _ => rfl
  | JVal.jstr _, _, _ => rfl
  | JVal.jarr l, ph, v => by
      simp only [replaceInObject, eraseStrings]
      exact congrArg JVal.jarr (eraseStrings_replaceInArr l ph v)
  | JVal.jobj fs, ph, v => by
      simp only [replaceInObject, eraseStrings]
      exact congrArg JVal.jobj (eraseStrings_replaceInFields fs ph v)

/-- Array version of `eraseStrings_replaceInObject`. -/
def eraseStrings_replaceInArr : (l : List JVal) → (ph v : String) →
    eraseStringsArr (replaceInArr l ph v) = eraseStringsArr l
  | [], _, _ => rfl
  | x :: xs, ph, v => by
      simp only [replaceInArr, eraseStringsArr]
      rw [eraseStrings_replaceInObject x ph v, eraseStrings_replaceInArr xs ph v]

/-- Field version of `eraseStrings_replaceInObject`. -/
def eraseStrings_replaceInFields : (fs : List (String × JVal)) → (ph v : String) →
    eraseStringsFields (replaceInFields fs ph v) = eraseStringsFields fs
  | [], _, _ => rfl
  | (k, x) :: xs, ph, v => by
      simp only [replaceInFields, eraseStringsFields]
      rw [eraseStrings_replaceInObject x ph v, eraseStrings_replaceInFields xs ph v]

end

/-- The JavaScript `x || d` idiom on strings: the default is used when the
value is the empty string (falsy), otherwise the value itself. -/
def jsOrStr (s d : String) : String :=
  if s = "" then d else s

/-- The argument object passed to `saveGeneratedImage` (src/index.js
1547-1561): image url and remote file descriptor plus the anchor-location
data captured at submission time. -/
structure ImageInfo where
  id : String
  url : String
  prompt : String
  originalPrompt : String
  customTags : String
  filename : String
  subfolder : String
  fileType : String
  buttonId : String
  messageIndex : Int
  messageId : String
  buttonSelector : String
deriving DecidableEq, Repr

/-- A persisted image record (the `imageData` object built in
`saveGeneratedImage`, src/index.js 68-83). -/
structure ImageData where
  id : String
  url : String
  prompt : String
  originalPrompt : String
  customTags : String
  timestamp : Nat
  filename : String
  subfolder : String
  fileType : String
  buttonId : String
  messageIndex : Int
  messageId : String
  buttonSelector : String
deriving DecidableEq, Repr

/-- Construction of the persisted record from the argument object
(src/index.js 68-83); `now` stands for `Date.now()`.  The `||` fallbacks
of lines 72-73 are modelled by `jsOrStr`. -/
def mkImageData (info : ImageInfo) (now : Nat) : ImageData :=
  { id := info.id
    url := info.url
    prompt := info.prompt
    originalPrompt := jsOrStr info.originalPrompt info.prompt
    customTags := jsOrStr info.customTags ""
    timestamp := now
    filename := info.filename
    subfolder := info.subfolder
    fileType := info.fileType
    buttonId := info.buttonId
    messageIndex := info.messageIndex
    messageId := info.messageId
    buttonSelector := info.buttonSelector }

/-- The store update performed by `saveGeneratedImage` (src/index.js
85-91): `unshift` the new record onto the front and, when the collection
then holds more than 100 entries, `slice(0, 100)` down to the most recent
100. -/
def saveGeneratedImage (info : ImageInfo) (now : Nat) (store : List ImageData) :
    List ImageData :=
  let store1 := mkImageData info now :: store
  if store1.length > 100 then store1.take 100 else store1

/-- A whole history of appends, oldest first, applied to an initial
store. -/
def appendMany (jobs : List (ImageInfo × Nat)) (store : List ImageData) :
    List ImageData :=
  jobs.foldl (fun st p => saveGeneratedImage p.1 p.2 st) store

/-- `deleteImageEntry` (src/index.js 103-120): keep the records whose id
differs from the requested one, and report whether the length dropped
(the code branches on exactly that comparison to emit the success or the
failure toast). -/
def deleteImageEntry (idToDelete : String) (store : List ImageData) :
    List ImageData × Bool :=
  let filtered := store.filter (fun img => img.id != idToDelete)
  (filtered, decide (filtered.length < store.length))

/-- `generateClientId` (src/index.js 640-642): the correlation id of a
job is the fixed prefix followed by a random base-36 suffix. -/
def generateClientId (randSuffix : String) : String :=
  "comfyui_generator_" ++ randSuffix

/-- A generate-button id (src/index.js 1072 and 1331): fixed prefix,
creation timestamp, dash, random base-36 suffix. -/
def mkButtonId (nowMs : Nat) (randSuffix : String) : String :=
  "comfyui-btn-" ++ toString nowMs ++ "-" ++ randSuffix

/-- The prompt composition of `generateImage` (src/index.js 1436-1441):
prepend the trimmed custom tags, comma-separated, unless they are
empty. -/
def composeFinalPrompt (customTags prompt : String) : String :=
  if customTags.trim = "" then prompt else customTags.trim ++ ", " ++ prompt

/-- The state of one in-flight generation job inside `generateImage`
(src/index.js 1424-1463 and 1532-1533): prompts, the anchor button's
identity and location data, and the freshly generated WebSocket client
id. -/
structure GenJob where
  prompt : String
  finalPrompt : String
  customTags : String
  buttonId : String
  clientId : String
  messageIndex : Int
  messageId : String
  buttonSelector : String
deriving DecidableEq, Repr

/-- A remote image descriptor from an `executed` channel message
(`{filename, subfolder, type}`). -/
structure ImageDesc where
  filename : String
  subfolder : String
  fileType : String
deriving DecidableEq, Repr

/-- The argument object the success callback of `generateImage` passes to
`saveGeneratedImage` (src/index.js 1547-1561): the record id and the
stored buttonId are both the id of the button that triggered the job,
while `job.clientId` appears nowhere in it. -/
def onImageSaveInfo (job : GenJob) (img : ImageDesc) (url : String) : ImageInfo :=
  { id := job.buttonId
    url := url
    prompt := job.finalPrompt
    originalPrompt := job.prompt
    customTags := job.customTags
    filename := img.filename
    subfolder := img.subfolder
    fileType := img.fileType
    buttonId := job.buttonId
    messageIndex := job.messageIndex
    messageId := job.messageId
    buttonSelector := job.buttonSelector }

/-- The staggered per-record restoration delay of `restoreStoredImages`
(src/index.js 845): record number `index` is restored after
`index * 200` milliseconds. -/
def restoreIndividualDelay (index : Nat) : Nat := index * 200

/-- The delay of the single summary report of `restoreStoredImages`
(src/index.js 853): `imagesToRestore.length * 200 + 500` milliseconds. -/
def restoreSummaryDelay (n : Nat) : Nat := n * 200 + 500

/-- Which callback, if any, a channel handler invokes. -/
inductive ChanCallback where
  | onImageGenerated : List ImageDesc → ChanCallback
  | onError : String → ChanCallback
  | silent : ChanCallback
deriving DecidableEq, Repr

/-- A parsed inbound WebSocket message (src/index.js 196-213):
`outputImages` is `some` exactly when `data.data.output` and
`data.data.output.images` are both present (an empty image list is still
present, as in JavaScript an empty array is truthy), and
`exceptionMessage` models `data.data.exception_message`. -/
structure ChannelMsg where
  msgType : String
  outputImages : Option (List ImageDesc)
  exceptionMessage : Option String
deriving DecidableEq, Repr

/-- The `data.data.exception_message || '未知错误'` fallback of
src/index.js 212. -/
def jsOrOpt (o : Option String) (d : String) : String :=
  match o with
  | some s => jsOrStr s d
  | none => d

/-- The message types silently dropped at the top of the `onmessage`
handler (src/index.js 199-203). -/
def housekeepingTypes : List String := ["crystools.monitor", "status", "progress"]

/-- Classification of a parsed message by the `onmessage` handler
(src/index.js 196-213): housekeeping types are dropped first; `executed`
messages with an image list invoke `onImageGenerated`; `execution_error`
messages invoke `onError`; everything else falls through silently. -/
def classifyMessage (d : ChannelMsg) : ChanCallback :=
  if d.msgType ∈ housekeepingTypes then ChanCallback.silent
  else if d.msgType = "executed" then
    match d.outputImages with
    | some imgs => ChanCallback.onImageGenerated imgs
    | none => ChanCallback.silent
  else if d.msgType = "execution_error" then
    ChanCallback.onError ("生成过程中发生错误: " ++ jsOrOpt d.exceptionMessage "未知错误")
  else ChanCallback.silent

/-- An event delivered to the handlers installed by `connectWebSocket`.
A `message` carries the result of `JSON.parse(event.data)`: `none` when
the payload is not valid JSON (the parse throws and the `catch` of
src/index.js 214-216 swallows the exception). -/
inductive ChanEvent where
  | message : Option ChannelMsg → ChanEvent
  | errorEvent : ChanEvent
  | closeEvent : ChanEvent
deriving DecidableEq, Repr

/-- `wsConnections.set(clientId, ws)` restricted to its key set
(src/index.js 188). -/
def wsSet (cid : String) (reg : List String) : List String :=
  if cid ∈ reg then reg else cid :: reg

/-- `wsConnections.delete(clientId)` restricted to its key set
(src/index.js 226). -/
def wsDelete (cid : String) (reg : List String) : List String :=
  reg.erase cid

/-- The effect of one event on a channel opened for `cid`: the new
key set of `wsConnections` and the callback invoked, following the three
handlers of src/index.js 194-227.  `onmessage` never touches the registry
and never closes the socket; `onerror` invokes `onError` with the fixed
channel message and leaves the registry alone; `onclose` deletes the
registry entry and invokes no callback. -/
def channelStep (cid : String) (reg : List String) :
    ChanEvent → List String × ChanCallback
  | ChanEvent.message p =>
    (reg, match p with
          | none => ChanCallback.silent
          | some d => classifyMessage d)
  | ChanEvent.errorEvent => (reg, ChanCallback.onError "WebSocket连接错误")
  | ChanEvent.closeEvent => (wsDelete cid reg, ChanCallback.silent)

/-- The synchronous part of `connectWebSocket` (src/index.js 186-234):
when the `WebSocket` constructor throws, `onError` is invoked and the
registry is untouched (the `set` on line 188 is never reached); otherwise
the handle is registered under `cid` and no callback fires. -/
def connectWebSocket (cid : String) (reg : List String) (ctorThrows : Bool) :
    List String × ChanCallback :=
  match ctorThrows with
  | true => (reg, ChanCallback.onError "无法创建WebSocket连接")
  | false => (wsSet cid reg, ChanCallback.silent)

/-- The JSON whitespace characters accepted by `JSON.parse` between
tokens. -/
def isJsonWs (c : Char) : Bool :=
  (c == ' ') || (c == '\t') || (c == '\n') || (c == '\r')

/-- Drop leading JSON whitespace. -/
def skipWs : List Char → List Char
  | [] => []
  | c :: rest => if isJsonWs c then skipWs rest else c :: rest

/-- Value of a hexadecimal digit, if any. -/
def hexVal (c : Char) : Option Nat :=
  if c.isDigit then some (c.toNat - 48)
  else if decide ('a' ≤ c) && decide (c ≤ 'f') then some (c.toNat - 87)
  else if decide ('A' ≤ c) && decide (c ≤ 'F') then some (c.toNat - 55)
  else none

/-- Body of a JSON string after the opening quote: content characters and
the remainder after the closing quote.  The JSON escapes are decoded and
raw control characters are rejected, as in `JSON.parse`. -/
def parseStringBody : List Char → Option (List Char × List Char)
  | [] => none
  | '"' :: rest => some ([], rest)
  | '\\' :: rest =>
    match rest with
    | [] => none
    | 'u' :: rest2 =>
      match rest2 with
      | a :: b :: c :: d :: rest3 =>
        match hexVal a, hexVal b, hexVal c, hexVal d with
        | some x1, some x2, some x3, some x4 =>
          (parseStringBody rest3).map
            (fun pr => (Char.ofNat (x1 * 4096 + x2 * 256 + x3 * 16 + x4) :: pr.1, pr.2))
        | _, _, _, _ => none
      | _ => none
    | e :: rest2 =>
      match
        (if e == '"' then some '"'
         else if e == '\\' then some '\\'
         else if e == '/' then some '/'
         else if e == 'b' then some '\x08'
         else if e == 'f' then some '\x0c'
         else if e == 'n' then some '\n'
         else if e == 'r' then some '\r'
         else if e == 't' then some '\t'
         else none) with
      | some decoded => (parseStringBody rest2).map (fun pr => (decoded :: pr.1, pr.2))
      | none => none
  | c :: rest =>
    if c.toNat < 32 then none
    else (parseStringBody rest).map (fun pr => (c :: pr.1, pr.2))

/-- Integer part of a JSON number: a single `0`, or a nonzero digit
followed by digits. -/
def parseIntPart : List Char → Option (List Char × List Char)
  | [] => none
  | '0' :: r => some (['0'], r)
  | c :: r =>
    if c.isDigit then some (c :: r.takeWhile Char.isDigit, r.drop (r.takeWhile Char.isDigit).length)
    else none

/-- Optional fraction part of a JSON number. -/
def parseFracPart : List Char → Option (List Char × List Char)
  | '.' :: r =>
    let ds := r.takeWhile Char.isDigit
    if ds.isEmpty then none else some ('.' :: ds, r.drop ds.length)
  | cs => some ([], cs)

/-- Optional exponent part of a JSON number. -/
def parseExpPart : List Char → Option (List Char × List Char)
  | [] => some ([], [])
  | c :: r =>
    if (c == 'e') || (c == 'E') then
      let (sgn, r2) :=
        match r with
        | '+' :: rr => ((['+'] : List Char), rr)
        | '-' :: rr => ((['-'] : List Char), rr)
        | _ => ([], r)
      let ds := r2.takeWhile Char.isDigit
      if ds.isEmpty then none else some (c :: (sgn ++ ds), r2.drop ds.length)
    else some ([], c :: r)

/-- A complete JSON numeral (sign, integer, fraction, exponent), returned
as its source characters. -/
def parseNumberChars (cs : List Char) : Option (List Char × List Char) :=
  let (sign, cs1) :=
    match cs with
    | '-' :: r => ((['-'] : List Char), r)
    | _ => ([], cs)
  match parseIntPart cs1 with
  | none => none
  | some (ip, cs2) =>
    match parseFracPart cs2 with
    | none => none
    | some (fp, cs3) =>
      match parseExpPart cs3 with
      | none => none
      | some (ep, cs4) => some (sign ++ ip ++ fp ++ ep, cs4)

mutual

/-- Recursive-descent model of `JSON.parse` on a value whose first
character is already reached (no leading whitespace).  The fuel decreases
on every nested parse; the top entry point supplies the input length plus
one, which is always sufficient because every recursion step first
consumes at least one character. -/
def parseJsonValue : Nat → List Char → Option (JVal × List Char)
  | 0, _ => none
  | fuel + 1, cs =>
    match cs with
    | [] => none
    | '\x7b' :: rest =>
      match skipWs rest with
      | '\x7d' :: r2 => some (JVal.jobj [], r2)
      | r =>
        match parseJsonMembers fuel r with
        | some (ms, r2) => some (JVal.jobj ms, r2)
        | none => none
    | '[' :: rest =>
      match skipWs rest with
      | ']' :: r2 => some (JVal.jarr [], r2)
      | r =>
        match parseJsonElems fuel r with
        | some (vs, r2) => some (JVal.jarr vs, r2)
        | none => none
    | '"' :: rest =>
      match parseStringBody rest with
      | some (content, rest2) => some (JVal.jstr ⟨content⟩, rest2)
      | none => none
    | 't' :: rest =>
      if ("rue".data).isPrefixOf rest then some (JVal.jbool true, rest.drop 3) else none
    | 'f' :: rest =>
      if ("alse".data).isPrefixOf rest then some (JVal.jbool false, rest.drop 4) else none
    | 'n' :: rest =>
      if ("ull".data).isPrefixOf rest then some (JVal.jnull, rest.drop 3) else none
    | c :: _ =>
      if (c == '-') || c.isDigit then
        match parseNumberChars cs with
        | some (numChars, rest2) => some (JVal.jnum ⟨numChars⟩, rest2)
        | none => none
      else none

/-- Members of a JSON object after the opening brace (at least one). -/
def parseJsonMembers : Nat → List Char → Option (List (String × JVal) × List Char)
  | 0, _ => none
  | fuel + 1, cs =>
    match skipWs cs with
    | '"' :: rest =>
      match parseStringBody rest with
      | some (key, rest2) =>
        match skipWs rest2 with
        | ':' :: rest3 =>
          match parseJsonValue fuel (skipWs rest3) with
          | some (v, rest4) =>
            match skipWs rest4 with
            | ',' :: rest5 =>
              match parseJsonMembers fuel rest5 with
              | some (ms, rest6) => some ((⟨key⟩, v) :: ms, rest6)
              | none => none
            | '\x7d' :: rest5 => some ([(⟨key⟩, v)], rest5)
            | _ => none
          | none => none
        | _ => none
      | none => none
    | _ => none

/-- Elements of a JSON array after the opening bracket (at least one). -/
def parseJsonElems : Nat → List Char → Option (List JVal × List Char)
  | 0, _ => none
  | fuel + 1, cs =>
    match parseJsonValue fuel (skipWs cs) with
    | some (v, rest) =>
      match skipWs rest with
      | ',' :: rest2 =>
        match parseJsonElems fuel rest2 with
        | some (vs, rest3) => some (v :: vs, rest3)
        | none => none
      | ']' :: rest2 => some ([v], rest2)
      | _ => none
    | none => none

end

/-- `JSON.parse`: a single JSON value surrounded by optional whitespace;
anything else throws, modelled as `none`. -/
def jsonParse (s : String) : Option JVal :=
  match parseJsonValue (s.data.length + 1) (skipWs s.data) with
  | some (v, rest) => if skipWs rest = [] then some v else none
  | none => none

/-- The ECMAScript whitespace class used by `String.prototype.trim` and by
`\s` in the placeholder regexps: ASCII whitespace, no-break and unicode
spaces, line and paragraph separators, and the byte-order mark. -/
def isJsSpace (c : Char) : Bool :=
  (c == ' ') || (c == '\t') || (c == '\n') || (c == '\r') ||
  (c == '\x0b') || (c == '\x0c') || (c == '\u00A0') || (c == '\u1680') ||
  (decide ('\u2000' ≤ c) && decide (c ≤ '\u200A')) ||
  (c == '\u2028') || (c == '\u2029') || (c == '\u202F') || (c == '\u205F') ||
  (c == '\u3000') || (c == '\uFEFF')

/-- `String.prototype.trim`. -/
def jsTrim (s : String) : String :=
  ⟨((s.data.dropWhile isJsSpace).reverse.dropWhile isJsSpace).reverse⟩

/-- The literal placeholder stand-ins of `validateWorkflowJson`
(src/index.js 580-588), applied in source order. -/
def literalStandIns : List (String × String) :=
  [("%positive%", "\"temp_positive_placeholder\""),
   ("%negative%", "\"temp_negative_placeholder\""),
   ("%seed%", "12345"),
   ("%width%", "512"),
   ("%height%", "512"),
   ("%steps%", "20"),
   ("%cfg%", "7.0"),
   ("%sampler%", "\"euler\""),
   ("%scheduler%", "\"normal\"")]

/-- Global replacement for the pattern matching a doubled-brace
placeholder (src/index.js 589): two opening braces, one or more
non-closing-brace characters, two closing braces.  Matching the maximal
run is equivalent to the regexp's backtracking because any shorter run is
followed by a non-closing-brace character, which the pattern rejects.
The fuel is initialised with the input length; one unit is spent per
emitted character or match. -/
def replaceDoubleBrace (v : List Char) : Nat → List Char → List Char → List Char
  | _, _, [] => []
  | 0, _, s => s
  | fuel + 1, pre, c :: rest =>
    if c == '\x7b' then
      match rest with
      | c2 :: rest2 =>
        if c2 == '\x7b' then
          let run := rest2.takeWhile (fun x => x != '\x7d')
          match rest2.drop run.length with
          | '\x7d' :: '\x7d' :: rest3 =>
            if run.isEmpty then c :: replaceDoubleBrace v fuel (pre ++ [c]) rest
            else
              getSubstitution (c :: c2 :: (run ++ ['\x7d', '\x7d'])) pre rest3 v
                ++ replaceDoubleBrace v fuel
                    (pre ++ (c :: c2 :: (run ++ ['\x7d', '\x7d']))) rest3
          | _ => c :: replaceDoubleBrace v fuel (pre ++ [c]) rest
        else c :: replaceDoubleBrace v fuel (pre ++ [c]) rest
      | [] => [c]
    else c :: replaceDoubleBrace v fuel (pre ++ [c]) rest

/-- Global replacement for the bracketed placeholder pattern
(src/index.js 590): an opening bracket, one or more non-closing-bracket
characters, a closing bracket. -/
def replaceBrackets (v : List Char) : Nat → List Char → List Char → List Char
  | _, _, [] => []
  | 0, _, s => s
  | fuel + 1, pre, c :: rest =>
    if c == '[' then
      let run := rest.takeWhile (fun x => x != ']')
      match rest.drop run.length with
      | ']' :: rest2 =>
        if run.isEmpty then c :: replaceBrackets v fuel (pre ++ [c]) rest
        else
          getSubstitution (c :: (run ++ [']'])) pre rest2 v
            ++ replaceBrackets v fuel (pre ++ (c :: (run ++ [']']))) rest2
      | _ => c :: replaceBrackets v fuel (pre ++ [c]) rest
    else c :: replaceBrackets v fuel (pre ++ [c]) rest

/-- A character allowed inside a percent-delimited placeholder by the
pattern of src/index.js 591: not a percent sign, not whitespace, not a
comma, closing brace or closing bracket. -/
def pctBodyChar (c : Char) : Bool :=
  !(c == '%') && !(isJsSpace c) && !(c == ',') && !(c == '\x7d') && !(c == ']')

/-- Global replacement for the generic percent-delimited placeholder
pattern (src/index.js 591). -/
def replacePercents (v : List Char) : Nat → List Char → List Char → List Char
  | _, _, [] => []
  | 0, _, s => s
  | fuel + 1, pre, c :: rest =>
    if c == '%' then
      let run := rest.takeWhile pctBodyChar
      match rest.drop run.length with
      | '%' :: rest2 =>
        if run.isEmpty then c :: replacePercents v fuel (pre ++ [c]) rest
        else
          getSubstitution (c :: (run ++ ['%'])) pre rest2 v
            ++ replacePercents v fuel (pre ++ (c :: (run ++ ['%']))) rest2
      | _ => c :: replacePercents v fuel (pre ++ [c]) rest
    else c :: replacePercents v fuel (pre ++ [c]) rest

/-- The placeholder substitution pipeline of `validateWorkflowJson`
(src/index.js 577-596): the literal stand-ins in source order, then the
doubled-brace, bracketed and percent-delimited patterns, each applied
globally to the output of the previous one. -/
def placeholderScrub (s : String) : String :=
  let s1 := literalStandIns.foldl (fun acc pr => jsReplaceAll acc pr.1 pr.2) s
  let standIn := ("\"temp_placeholder\"").data
  let s2 : String := ⟨replaceDoubleBrace standIn s1.data.length [] s1.data⟩
  let s3 : String := ⟨replaceBrackets standIn s2.data.length [] s2.data⟩
  ⟨replacePercents standIn s3.data.length [] s3.data⟩

/-- `validateWorkflowJson` (src/index.js 563-633) restricted to its
validity verdict: `some parsed` models a `{ valid: true, parsed }` return
and `none` models every `{ valid: false, error }` return (the error text
assembled on lines 605-631 plays no role in validity).  Empty or
whitespace-only input is rejected up front; a leading byte-order mark is
stripped; the scratch copy is scrubbed with the placeholder stand-ins and
then handed to `JSON.parse`. -/
def validateWorkflowJson (s : String) : Option JVal :=
  if s = "" then none
  else if jsTrim s = "" then none
  else
    let clean := jsTrim s
    let clean2 :=
      if clean.data.head? = some '\uFEFF' then (⟨clean.data.drop 1⟩ : String) else clean
    jsonParse (placeholderScrub clean2)

/-- A node of the JavaScript object graph, with children referred to by
heap address.  This is the reference-level view of the values
`replaceInObject` walks; the pure `JVal` view above is its readback. -/
inductive HNode where
  | hstr : String → HNode
  | hnum : String → HNode
  | hbool : Bool → HNode
  | hnull : HNode
  | harr : List Nat → HNode
  | hobj : List (String × Nat) → HNode
deriving DecidableEq, Repr

/-- A heap: the address of a node is its index, and allocation appends. -/
abbrev Heap := List HNode

mutual

/-- `replaceInObject` (src/index.js 1501-1515) as a heap transformer,
making its allocation behaviour explicit: the string branch returns a new
string value, the array branch builds a new array from `obj.map`, the
object branch fills a fresh `newObj`, and the final branch returns `obj`
itself — the input reference — for every other value.  Nothing is ever
written to an existing address; the heap only grows.  The fuel bounds the
recursion depth exactly as the JavaScript call stack does. -/
def replaceInObjectH : Nat → Heap → String → String → Nat → Option (Heap × Nat)
  | 0, _, _, _, _ => none
  | fuel + 1, h, ph, v, a =>
    match h[a]? with
    | some (HNode.hstr s) => some (h ++ [HNode.hstr (jsReplaceAll s ph v)], h.length)
    | some (HNode.harr elems) =>
      match replaceInArrH fuel h ph v elems with
      | some (h2, elems2) => some (h2 ++ [HNode.harr elems2], h2.length)
      | none => none
    | some (HNode.hobj fields) =>
      match replaceInFieldsH fuel h ph v fields with
      | some (h2, fields2) => some (h2 ++ [HNode.hobj fields2], h2.length)
      | none => none
    | some _ => some (h, a)
    | none => none

/-- Heap-level substitution over the elements of an array node. -/
def replaceInArrH : Nat → Heap → String → String → List Nat → Option (Heap × List Nat)
  | 0, _, _, _, _ => none
  | _ + 1, h, _, _, [] => some (h, [])
  | fuel + 1, h, ph, v, a :: rest =>
    match replaceInObjectH fuel h ph v a with
    | some (h2, a2) =>
      match replaceInArrH fuel h2 ph v rest with
      | some (h3, rest2) => some (h3, a2 :: rest2)
      | none => none
    | none => none

/-- Heap-level substitution over the fields of an object node. -/
def replaceInFieldsH : Nat → Heap → String → String → List (String × Nat) →
    Option (Heap × List (String × Nat))
  | 0, _, _, _, _ => none
  | _ + 1, h, _, _, [] => some (h, [])
  | fuel + 1, h, ph, v, (k, a) :: rest =>
    match replaceInObjectH fuel h ph v a with
    | some (h2, a2) =>
      match replaceInFieldsH fuel h2 ph v rest with
      | some (h3, rest2) => some (h3, (k, a2) :: rest2)
      | none => none
    | none => none

end

mutual

/-- Readback of the tree rooted at an address into the pure value view. -/
def decodeH : Nat → Heap → Nat → Option JVal
  | 0, _, _ => none
  | fuel + 1, h, a =>
    match h[a]? with
    | some (HNode.hstr s) => some (JVal.jstr s)
    | some (HNode.hnum s) => some (JVal.jnum s)
    | some (HNode.hbool b) => some (JVal.jbool b)
    | some HNode.hnull => some JVal.jnull
    | some (HNode.harr elems) =>
      match decodeArrH fuel h elems with
      | some vs => some (JVal.jarr vs)
      | none => none
    | some (HNode.hobj fields) =>
      match decodeFieldsH fuel h fields with
      | some fs => some (JVal.jobj fs)
      | none => none
    | none => none

/-- Readback of a list of element addresses. -/
def decodeArrH : Nat → Heap → List Nat → Option (List JVal)
  | 0, _, _ => none
  | _ + 1, _, [] => some []
  | fuel + 1, h, a :: rest =>
    match decodeH fuel h a, decodeArrH fuel h rest with
    | some v, some vs => some (v :: vs)
    | _, _ => none

/-- Readback of a list of field addresses. -/
def decodeFieldsH : Nat → Heap → List (String × Nat) → Option (List (String × JVal))
  | 0, _, _ => none
  | _ + 1, _, [] => some []
  | fuel + 1, h, (k, a) :: rest =>
    match decodeH fuel h a, decodeFieldsH fuel h rest with
    | some v, some vs => some ((k, v) :: vs)
    | _, _ => none

end

/-- A concrete stored record, used to instantiate the store properties. -/
def sampleRecord (idv : String) (ts : Nat) : ImageData :=
  { id := idv
    url := "http://127.0.0.1:8188/view?filename=x.png&type=output"
    prompt := "p"
    originalPrompt := "p"
    customTags := ""
    timestamp := ts
    filename := "x.png"
    subfolder := ""
    fileType := "output"
    buttonId := idv
    messageIndex := 0
    messageId := ""
    buttonSelector := "" }

/-- A concrete append argument, used to instantiate the store properties. -/
def sampleInfo (idv : String) : ImageInfo :=
  { id := idv
    url := "http://127.0.0.1:8188/view?filename=x.png&type=output"
    prompt := "p"
    originalPrompt := "p"
    customTags := ""
    filename := "x.png"
    subfolder := ""
    fileType := "output"
    buttonId := idv
    messageIndex := 0
    messageId := ""
    buttonSelector := "" }

theorem isPrefixOf_append_self (l t : List Char) : l.isPrefixOf (l ++ t) = true := by
  simp [List.isPrefixOf_iff_prefix]

theorem getSubstitution_no_dollar (matched before after : List Char) :
    ∀ (v : List Char), (∀ c ∈ v, c ≠ '$') → getSubstitution matched before after v = v := by
  intro v
  induction v with
  | nil => intro _; rfl
  | cons c rest ih =>
    intro hv
    have hc : c ≠ '$' := hv c (List.mem_cons_self c rest)
    rw [getSubstitution.eq_def]
    simp only [if_neg hc]
    rw [ih (fun x hx => hv x (List.mem_cons_of_mem c hx))]

theorem replAllAux_nil (p : Char) (ps v : List Char) (fuel : Nat) (pre : List Char) :
    replAllAux p ps v fuel pre [] = [] := by
  cases fuel <;> rfl

theorem replAllAux_double (p : Char) (ps v : List Char) (hv : ∀ c ∈ v, c ≠ '$')
    (fuel : Nat) (pre : List Char) :
    replAllAux p ps v (fuel + 2) pre ((p :: ps) ++ (p :: ps)) = v ++ v := by
  have hc1 : (p :: ps).isPrefixOf (p :: (ps ++ (p :: ps))) = true := by
    rw [← List.cons_append]
    exact isPrefixOf_append_self _ _
  have hc2 : (p :: ps).isPrefixOf (p :: ps) = true := by
    have h := isPrefixOf_append_self (p :: ps) []
    rwa [List.append_nil] at h
  rw [List.cons_append]
  simp only [replAllAux, hc1, if_true]
  simp only [List.drop_left]
  simp only [replAllAux, hc2, if_true]
  simp only [List.drop_length, replAllAux_nil, List.append_nil]
  rw [getSubstitution_no_dollar _ _ _ v hv, getSubstitution_no_dollar _ _ _ v hv]

theorem jsReplaceAll_pair (ph v : String) (h : ph ≠ "")
    (hv : ∀ c ∈ v.data, c ≠ '$') :
    jsReplaceAll (ph ++ ph) ph v = v ++ v := by
  obtain ⟨p, ps, hd⟩ : ∃ p ps, ph.data = p :: ps := by
    cases hph : ph.data with
    | nil => exact absurd (String.ext hph) h
    | cons p ps => exact ⟨p, ps, rfl⟩
  have hlen : ((p :: ps) ++ (p :: ps)).length = 2 * ps.length + 2 := by
    simp [List.length_append]
    omega
  have happ : (ph ++ ph).data = (p :: ps) ++ (p :: ps) := by
    rw [String.data_append, hd]
  simp only [jsReplaceAll, hd, happ, hlen, replAllAux_double p ps v.data hv]
  cases v with
  | mk vdata => rw [← String.data_append]

/-- C6 counterexample: the replacement value is handed to
`String.prototype.replace` as a string replacement, so its dollar
sequences are interpreted by `GetSubstitution`; with the value `$&` —
and the value on the fill path is the user's prompt, which may contain
it — every match re-inserts the matched token itself, so the output is
not the value at each occurrence: the token survives verbatim. -/
theorem fill_dollar_sequence_not_literal :
    replaceInObject (JVal.jstr "%p%%p%") ("%p%") ("$&") = JVal.jstr "%p%%p%"
    ∧ ("%p%%p%" : String) ≠ ("$&" ++ "$&") := by
  exact ⟨rfl, by decide⟩

/-- C6 amended: `replaceInObject` substitutes globally in every
string-valued node — every occurrence of the token, not just the first —
inserting the `GetSubstitution` expansion of the value, which is the
value itself whenever the value contains no dollar sign (in particular
in the spec's own example, evaluated on a tree with a nested string and
shown as a general two-occurrence law for an arbitrary non-empty token);
and every non-string node passes through structurally unchanged
(identical string-erasures). -/
theorem fill_replaces_every_occurrence :
    (replaceInObject (JVal.jobj [("a", JVal.jstr "%p% and %p%"),
        ("b", JVal.jarr [JVal.jstr "%p%", JVal.jnum "3"])]) ("%p%") ("X")
      = JVal.jobj [("a", JVal.jstr "X and X"),
        ("b", JVal.jarr [JVal.jstr "X", JVal.jnum "3"])])
    ∧ (∀ obj ph v, eraseStrings (replaceInObject obj ph v) = eraseStrings obj)
    ∧ (∀ ph v : String, ph ≠ "" → (∀ c ∈ v.data, c ≠ '$') →
        replaceInObject (JVal.jstr (ph ++ ph)) ph v = JVal.jstr (v ++ v)) := by
  refine ⟨rfl, fun obj ph v => eraseStrings_replaceInObject obj ph v,
    fun ph v h hv => ?_⟩
  simp only [replaceInObject, jsReplaceAll_pair ph v h hv]

/-- Witness for the amended C6 at a concrete token and dollar-free
value. -/
theorem fill_replaces_every_occurrence_witness :
    replaceInObject (JVal.jstr ("%q%" ++ "%q%")) ("%q%") ("Y") = JVal.jstr ("Y" ++ "Y") :=
  fill_replaces_every_occurrence.2.2 ("%q%") ("Y") (by decide) (by decide)

/-- C4 counterexample: already for five records the summary delay
`5 * 200 + 500 = 1500` is strictly below the sum `0+200+400+600+800 = 2000`
of the individual delays, so it is below that sum plus any safety margin;
the claimed inequality fails at `n = 5`. -/
theorem restore_summary_races_sum :
    restoreSummaryDelay 5 < ((List.range 5).map restoreIndividualDelay).sum
    ∧ ¬ (((List.range 5).map restoreIndividualDelay).sum + 500
          ≤ restoreSummaryDelay 5) := by decide

/-- C4 amended: the summary report of `restoreStoredImages` is scheduled
at least its 500 ms safety margin after every individual staggered
restoration delay (the timers run concurrently, so exceeding the largest
delay, not their sum, is what lets every restoration complete first). -/
theorem restore_summary_after_every_delay (n i : Nat) (h : i < n) :
    restoreIndividualDelay i + 500 ≤ restoreSummaryDelay n := by
  unfold restoreIndividualDelay restoreSummaryDelay
  omega

/-- Witness for the amended C4 at `n = 5`, `i = 4`. -/
theorem restore_summary_after_every_delay_witness :
    restoreIndividualDelay 4 + 500 ≤ restoreSummaryDelay 5 :=
  restore_summary_after_every_delay 5 4 (by decide)

/-- C3 counterexample: a mid-session error event invokes `onError` but
leaves the handle registered, and the close event removes the handle but
invokes no callback — no single transport failure both invokes `onError`
and removes the registry entry. -/
theorem channel_error_keeps_handle :
    (channelStep ("c1") ["c1"] ChanEvent.errorEvent).2
        = ChanCallback.onError "WebSocket连接错误"
    ∧ (channelStep ("c1") ["c1"] ChanEvent.errorEvent).1 = ["c1"]
    ∧ (channelStep ("c1") ["c1"] ChanEvent.closeEvent).2 = ChanCallback.silent
    ∧ (channelStep ("c1") ["c1"] ChanEvent.closeEvent).1 = [] := by decide

/-- C3 amended: transport failures split the two reactions across
handlers — the error handler invokes `onError` with the channel-specific
message and leaves the registry untouched, the close handler (which
follows an errored connection) removes the registry entry without
invoking `onError`, and an open failure invokes `onError` while the
handle was never registered at all. -/
theorem channel_failure_split (cid : String) (reg : List String) :
    channelStep cid reg ChanEvent.errorEvent
        = (reg, ChanCallback.onError "WebSocket连接错误")
    ∧ channelStep cid reg ChanEvent.closeEvent
        = (reg.erase cid, ChanCallback.silent)
    ∧ connectWebSocket cid reg true
        = (reg, ChanCallback.onError "无法创建WebSocket连接") :=
  ⟨rfl, rfl, rfl⟩

/-- C8: a housekeeping message (monitoring ping, status ping, progress
tick) or a message of any type other than `executed` and
`execution_error` invokes neither callback and leaves the registry
untouched. -/
theorem housekeeping_and_unknown_silent (d : ChannelMsg)
    (h : d.msgType ∈ housekeepingTypes
         ∨ (d.msgType ≠ "executed" ∧ d.msgType ≠ "execution_error"))
    (cid : String) (reg : List String) :
    channelStep cid reg (ChanEvent.message (some d)) = (reg, ChanCallback.silent) := by
  have hc : classifyMessage d = ChanCallback.silent := by
    unfold classifyMessage
    rcases h with h | ⟨h1, h2⟩
    · rw [if_pos h]
    · by_cases hm : d.msgType ∈ housekeepingTypes
      · rw [if_pos hm]
      · rw [if_neg hm, if_neg h1, if_neg h2]
  simp [channelStep, hc]

/-- Witness for C8: a status ping that even carries an image payload, and
an unrecognized message type carrying an exception message, are both
dropped. -/
theorem housekeeping_and_unknown_silent_witness :
    channelStep ("c2") ["c2"]
        (ChanEvent.message (some ⟨"status", some [⟨"f", "s", "output"⟩], none⟩))
      = (["c2"], ChanCallback.silent)
    ∧ channelStep ("c2") ["c2"]
        (ChanEvent.message (some ⟨"progress_state", none, some "boom"⟩))
      = (["c2"], ChanCallback.silent) :=
  ⟨housekeeping_and_unknown_silent _ (Or.inl (by decide)) _ _,
   housekeeping_and_unknown_silent _ (Or.inr (by decide)) _ _⟩

/-- C10: a message whose payload does not parse as JSON invokes neither
callback and leaves the registry (and hence the open channel) untouched:
the handler's catch block swallows the parse failure, so the job stays
pending. -/
theorem unparseable_message_swallowed (cid : String) (reg : List String) :
    channelStep cid reg (ChanEvent.message none) = (reg, ChanCallback.silent) := rfl

theorem buttonId_ne_clientId (x y : String) :
    ("comfyui-btn-" ++ x) ≠ ("comfyui_generator_" ++ y) := by
  intro h
  have hd : ("comfyui-btn-").data ++ x.data = ("comfyui_generator_").data ++ y.data := by
    have h2 := congrArg String.data h
    rwa [String.data_append, String.data_append] at h2
  have e1 : (("comfyui-btn-").data ++ x.data)[7]? = some '-' := by
    rw [List.getElem?_append_left (by decide)]
    decide
  have e2 : (("comfyui_generator_").data ++ y.data)[7]? = some '_' := by
    rw [List.getElem?_append_left (by decide)]
    decide
  rw [hd, e2] at e1
  exact absurd e1 (by decide)

/-- C2 counterexample: a concrete completed job whose persisted record id
(the button id) differs from the correlation id under which the job's
channel was opened. -/
theorem saved_record_id_ne_clientId_example :
    (mkImageData (onImageSaveInfo
        { prompt := "a cat"
          finalPrompt := "a cat"
          customTags := ""
          buttonId := "comfyui-btn-1700000000000-abc123"
          clientId := generateClientId "k3q9z7w1x5"
          messageIndex := 0
          messageId := ""
          buttonSelector := "" }
        ⟨"ComfyUI_00001_.png", "", "output"⟩
        ("http://127.0.0.1:8188/view?filename=ComfyUI_00001_.png&type=output"))
      1700000000500).id
    ≠ generateClientId "k3q9z7w1x5" := by decide

/-- C2 amended: every record handed to the store by the success path of
`generateImage` carries the triggering button's id — not the correlation
id — as its `id`; the record becomes the head of the store, and a
button id can never coincide with a generated client id because the two
have distinct fixed prefixes. -/
theorem saved_record_id_is_buttonId (job : GenJob) (img : ImageDesc)
    (url : String) (now : Nat) (store : List ImageData) :
    (mkImageData (onImageSaveInfo job img url) now).id = job.buttonId
    ∧ (saveGeneratedImage (onImageSaveInfo job img url) now store).head?
        = some (mkImageData (onImageSaveInfo job img url) now)
    ∧ (∀ x y : String, ("comfyui-btn-" ++ x) ≠ generateClientId y) := by
  refine ⟨rfl, ?_, fun x y => buttonId_ne_clientId x y⟩
  unfold saveGeneratedImage
  by_cases hlen : (mkImageData (onImageSaveInfo job img url) now :: store).length > 100
  · rw [if_pos hlen]
    rw [show (100 : Nat) = 99 + 1 from rfl, List.take_succ_cons]
    rfl
  · rw [if_neg hlen]
    rfl

theorem length_filter_ne_eq_sub (idd : String) (store : List ImageData) :
    (store.filter (fun img => img.id != idd)).length
      = store.length - (store.filter (fun img => img.id == idd)).length := by
  induction store with
  | nil => rfl
  | cons r rs ih =>
    have hle := List.length_filter_le (fun img => img.id == idd) rs
    by_cases h : r.id = idd
    · simp [List.filter_cons, h, ih]
    · simp [List.filter_cons, h, ih]
      omega

/-- C5 counterexample: with two records sharing the id `a` (the same
button generated twice), `deleteImageEntry` removes both, so the count
drops by two, not by exactly one. -/
theorem deleteImageEntry_removes_all_matches :
    (deleteImageEntry ("a") [sampleRecord ("a") 1, sampleRecord ("a") 2]).2 = true
    ∧ (deleteImageEntry ("a") [sampleRecord ("a") 1, sampleRecord ("a") 2]).1.length = 0
    ∧ ¬ ((deleteImageEntry ("a") [sampleRecord ("a") 1, sampleRecord ("a") 2]).1.length
          = 2 - 1) := by decide

/-- C5 amended: when no stored record carries the requested id,
`deleteImageEntry` reports failure and leaves the store unchanged; when
some record carries it, it reports success and the count strictly drops,
by exactly the number of records carrying that id — which is one exactly
when the id occurs once. -/
theorem deleteImageEntry_spec :
    (∀ (idd : String) (store : List ImageData), (∀ r ∈ store, r.id ≠ idd) →
        deleteImageEntry idd store = (store, false))
    ∧ (∀ (idd : String) (store : List ImageData), (∃ r ∈ store, r.id = idd) →
        (deleteImageEntry idd store).2 = true
        ∧ (deleteImageEntry idd store).1.length < store.length
        ∧ (deleteImageEntry idd store).1.length
            = store.length - (store.filter (fun r => r.id == idd)).length)
    ∧ (∀ (idd : String) (store : List ImageData),
        (store.filter (fun r => r.id == idd)).length = 1 →
        (deleteImageEntry idd store).1.length + 1 = store.length) := by
  refine ⟨?_, ?_, ?_⟩
  · intro idd store hall
    have hfil : store.filter (fun img => img.id != idd) = store := by
      rw [List.filter_eq_self]
      intro a ha
      simp [hall a ha]
    unfold deleteImageEntry
    rw [hfil]
    simp [Nat.lt_irrefl]
  · intro idd store hex
    have hlt : (store.filter (fun img => img.id != idd)).length < store.length := by
      rw [List.length_filter_lt_length_iff_exists]
      obtain ⟨r, hr, hid⟩ := hex
      exact ⟨r, hr, by simp [hid]⟩
    refine ⟨?_, hlt, length_filter_ne_eq_sub idd store⟩
    unfold deleteImageEntry
    simp only [decide_eq_true_eq]
    exact hlt
  · intro idd store hone
    have hle := List.length_filter_le (fun img => img.id == idd) store
    have hsub := length_filter_ne_eq_sub idd store
    unfold deleteImageEntry
    simp only []
    omega

/-- Witness for the amended C5: an absent id is a no-op reporting false;
a uniquely present id reports true and drops the count by exactly one. -/
theorem deleteImageEntry_spec_witness :
    deleteImageEntry ("b") [sampleRecord ("a") 1] = ([sampleRecord ("a") 1], false)
    ∧ (deleteImageEntry ("a") [sampleRecord ("a") 1, sampleRecord ("b") 2]).2 = true
    ∧ (deleteImageEntry ("a") [sampleRecord ("a") 1, sampleRecord ("b") 2]).1.length + 1
        = 2 :=
  ⟨deleteImageEntry_spec.1 ("b") [sampleRecord ("a") 1] (by decide),
   (deleteImageEntry_spec.2.1 ("a") [sampleRecord ("a") 1, sampleRecord ("b") 2]
      ⟨sampleRecord ("a") 1, by decide, by decide⟩).1,
   deleteImageEntry_spec.2.2 ("a") [sampleRecord ("a") 1, sampleRecord ("b") 2]
      (by decide)⟩

theorem saveGeneratedImage_eq_take (info : ImageInfo) (now : Nat)
    (store : List ImageData) :
    saveGeneratedImage info now store = (mkImageData info now :: store).take 100 := by
  unfold saveGeneratedImage
  by_cases h : (mkImageData info now :: store).length > 100
  · rw [if_pos h]
  · rw [if_neg h]
    exact (List.take_of_length_le (by omega)).symm

theorem take_append_take (A B : List ImageData) (n : Nat) :
    (A ++ B.take n).take n = (A ++ B).take n := by
  rw [List.take_append_eq_append_take, List.take_take,
    Nat.min_eq_left (Nat.sub_le n A.length), List.take_append_eq_append_take]

theorem appendMany_eq_take (jobs : List (ImageInfo × Nat)) :
    ∀ store : List ImageData, store.length ≤ 100 →
      appendMany jobs store
        = ((jobs.map (fun p => mkImageData p.1 p.2)).reverse ++ store).take 100 := by
  induction jobs with
  | nil =>
    intro store h
    simp only [appendMany, List.foldl_nil, List.map_nil, List.reverse_nil,
      List.nil_append]
    exact (List.take_of_length_le h).symm
  | cons j js ih =>
    intro store h
    have hstep : appendMany (j :: js) store
        = appendMany js (saveGeneratedImage j.1 j.2 store) := rfl
    rw [hstep, saveGeneratedImage_eq_take,
      ih _ (by rw [List.length_take]; omega), take_append_take]
    simp [List.append_assoc]

/-- C7: after any sequence of appends starting from a store within the
cap, the store holds at most 100 records; appending 101 records to an
empty store leaves exactly the 100 most recent in newest-first order,
with the earliest-appended record dropped. -/
theorem store_bounded_and_drops_earliest :
    (∀ (jobs : List (ImageInfo × Nat)) (store : List ImageData),
        store.length ≤ 100 → (appendMany jobs store).length ≤ 100)
    ∧ (∀ jobs : List (ImageInfo × Nat), jobs.length = 101 →
        appendMany jobs []
          = ((jobs.drop 1).map (fun p => mkImageData p.1 p.2)).reverse) := by
  constructor
  · intro jobs store h
    rw [appendMany_eq_take jobs store h, List.length_take]
    omega
  · intro jobs h
    rw [appendMany_eq_take jobs [] (by simp), List.append_nil]
    have hlen : (jobs.map (fun p => mkImageData p.1 p.2)).length = 101 := by
      simp [h]
    rw [List.take_reverse, hlen]
    norm_num

/-- Witness for C7: 101 identical appends leave exactly 100 records, the
earliest one dropped. -/
theorem store_bounded_and_drops_earliest_witness :
    (appendMany (List.replicate 101 (sampleInfo ("b"), 7)) []).length ≤ 100
    ∧ appendMany (List.replicate 101 (sampleInfo ("b"), 7)) []
        = (((List.replicate 101 (sampleInfo ("b"), 7)).drop 1).map
            (fun p => mkImageData p.1 p.2)).reverse :=
  ⟨store_bounded_and_drops_earliest.1 (List.replicate 101 (sampleInfo ("b"), 7)) []
      (by decide),
   store_bounded_and_drops_earliest.2 (List.replicate 101 (sampleInfo ("b"), 7))
      (by simp)⟩

/-- C1 (divergence witness): the canonical template that stores the
default placeholder inside a JSON string — itself perfectly valid JSON,
as the first conjunct shows — is rejected by the validator: the scrub of
src/index.js 580 substitutes `%positive%` together with surrounding
double quotes, so inside the already-quoted value the scratch copy
becomes a value with doubled quotes (second
conjunct, shown verbatim), which `JSON.parse` rejects, so
`validateWorkflowJson` returns an invalid verdict (third conjunct) —
against both the claim and the code's own stated purpose for the
substitution (avoiding parse failures caused by placeholders,
src/index.js 577). -/
theorem validate_rejects_quoted_default_placeholder :
    jsonParse ("\x7b \"text\": \"%positive%\" \x7d")
      = some (JVal.jobj [("text", JVal.jstr "%positive%")])
    ∧ placeholderScrub ("\x7b \"text\": \"%positive%\" \x7d")
      = "\x7b \"text\": \"\"temp_positive_placeholder\"\" \x7d"
    ∧ validateWorkflowJson ("\x7b \"text\": \"%positive%\" \x7d") = none :=
  ⟨rfl, rfl, rfl⟩

theorem heap_ext_all : ∀ fuel : Nat,
    (∀ (h : Heap) (ph v : String) (a : Nat) (h2 : Heap) (a2 : Nat),
        replaceInObjectH fuel h ph v a = some (h2, a2) → ∃ ext, h2 = h ++ ext)
    ∧ (∀ (h : Heap) (ph v : String) (l : List Nat) (h2 : Heap) (l2 : List Nat),
        replaceInArrH fuel h ph v l = some (h2, l2) → ∃ ext, h2 = h ++ ext)
    ∧ (∀ (h : Heap) (ph v : String) (fs : List (String × Nat)) (h2 : Heap)
          (fs2 : List (String × Nat)),
        replaceInFieldsH fuel h ph v fs = some (h2, fs2) → ∃ ext, h2 = h ++ ext) := by
  intro fuel
  induction fuel with
  | zero =>
    refine ⟨?_, ?_, ?_⟩ <;> intro h ph v x h2 y heq <;>
      simp [replaceInObjectH, replaceInArrH, replaceInFieldsH] at heq
  | succ fuel ih =>
    obtain ⟨ihO, ihA, ihF⟩ := ih
    refine ⟨?_, ?_, ?_⟩
    · intro h ph v a h2 a2 heq
      simp only [replaceInObjectH] at heq
      split at heq
      · simp only [Option.some.injEq, Prod.mk.injEq] at heq
        exact ⟨_, heq.1.symm⟩
      · split at heq
        · rename_i h3 elems2 hr
          simp only [Option.some.injEq, Prod.mk.injEq] at heq
          obtain ⟨he, _⟩ := heq
          obtain ⟨ext, hext⟩ := ihA h ph v _ h3 elems2 hr
          exact ⟨ext ++ [HNode.harr elems2], by rw [← he, hext, List.append_assoc]⟩
        · exact absurd heq (by simp)
      · split at heq
        · rename_i h3 fields2 hr
          simp only [Option.some.injEq, Prod.mk.injEq] at heq
          obtain ⟨he, _⟩ := heq
          obtain ⟨ext, hext⟩ := ihF h ph v _ h3 fields2 hr
          exact ⟨ext ++ [HNode.hobj fields2], by rw [← he, hext, List.append_assoc]⟩
        · exact absurd heq (by simp)
      · simp only [Option.some.injEq, Prod.mk.injEq] at heq
        exact ⟨[], by rw [← heq.1, List.append_nil]⟩
      · exact absurd heq (by simp)
    · intro h ph v l h2 l2 heq
      cases l with
      | nil =>
        simp only [replaceInArrH, Option.some.injEq, Prod.mk.injEq] at heq
        exact ⟨[], by rw [← heq.1, List.append_nil]⟩
      | cons a rest =>
        simp only [replaceInArrH] at heq
        split at heq
        · rename_i hA a2 h1
          split at heq
          · rename_i hB rest2 h2r
            simp only [Option.some.injEq, Prod.mk.injEq] at heq
            obtain ⟨hBeq, _⟩ := heq
            obtain ⟨e1, he1⟩ := ihO h ph v a hA a2 h1
            obtain ⟨e2, he2⟩ := ihA hA ph v rest hB rest2 h2r
            exact ⟨e1 ++ e2, by rw [← hBeq, he2, he1, List.append_assoc]⟩
          · exact absurd heq (by simp)
        · exact absurd heq (by simp)
    · intro h ph v fs h2 fs2 heq
      cases fs with
      | nil =>
        simp only [replaceInFieldsH, Option.some.injEq, Prod.mk.injEq] at heq
        exact ⟨[], by rw [← heq.1, List.append_nil]⟩
      | cons ka rest =>
        obtain ⟨k, a⟩ := ka
        simp only [replaceInFieldsH] at heq
        split at heq
        · rename_i hA a2 h1
          split at heq
          · rename_i hB rest2 h2r
            simp only [Option.some.injEq, Prod.mk.injEq] at heq
            obtain ⟨hBeq, _⟩ := heq
            obtain ⟨e1, he1⟩ := ihO h ph v a hA a2 h1
            obtain ⟨e2, he2⟩ := ihF hA ph v rest hB rest2 h2r
            exact ⟨e1 ++ e2, by rw [← hBeq, he2, he1, List.append_assoc]⟩
          · exact absurd heq (by simp)
        · exact absurd heq (by simp)

theorem decode_extend_all : ∀ fuel : Nat,
    (∀ (h ext : Heap) (a : Nat) (t : JVal),
        decodeH fuel h a = some t → decodeH fuel (h ++ ext) a = some t)
    ∧ (∀ (h ext : Heap) (l : List Nat) (ts : List JVal),
        decodeArrH fuel h l = some ts → decodeArrH fuel (h ++ ext) l = some ts)
    ∧ (∀ (h ext : Heap) (fs : List (String × Nat)) (ts : List (String × JVal)),
        decodeFieldsH fuel h fs = some ts → decodeFieldsH fuel (h ++ ext) fs = some ts) := by
  intro fuel
  induction fuel with
  | zero =>
    refine ⟨?_, ?_, ?_⟩ <;> intro h ext x t heq <;>
      simp [decodeH, decodeArrH, decodeFieldsH] at heq
  | succ fuel ih =>
    obtain ⟨ihO, ihA, ihF⟩ := ih
    refine ⟨?_, ?_, ?_⟩
    · intro h ext a t heq
      have hlt : a < h.length := by
        by_contra hcon
        have hnone : h[a]? = none := List.getElem?_eq_none (by omega)
        simp only [decodeH, hnone] at heq
        exact Option.noConfusion heq
      have hsame : (h ++ ext)[a]? = h[a]? := List.getElem?_append_left hlt
      simp only [decodeH] at heq ⊢
      rw [hsame]
      split at heq
      · exact heq
      · exact heq
      · exact heq
      · exact heq
      · rename_i elems hget
        split at heq
        · rename_i ts hd
          rw [ihA h ext elems ts hd]
          exact heq
        · exact absurd heq (by simp)
      · rename_i fields hget
        split at heq
        · rename_i ts hd
          rw [ihF h ext fields ts hd]
          exact heq
        · exact absurd heq (by simp)
      · exact absurd heq (by simp)
    · intro h ext l ts heq
      cases l with
      | nil => simpa [decodeArrH] using heq
      | cons a rest =>
        simp only [decodeArrH] at heq ⊢
        split at heq
        · rename_i v vs hv hvs
          rw [ihO h ext a v hv, ihA h ext rest vs hvs]
          exact heq
        · exact absurd heq (by simp)
    · intro h ext fs ts heq
      cases fs with
      | nil => simpa [decodeFieldsH] using heq
      | cons ka rest =>
        obtain ⟨k, a⟩ := ka
        simp only [decodeFieldsH] at heq ⊢
        split at heq
        · rename_i v vs hv hvs
          rw [ihO h ext a v hv, ihF h ext rest vs hvs]
          exact heq
        · exact absurd heq (by simp)

/-- C9: the template fill never mutates its input document.  At the
reference level, a successful `replaceInObjectH` run only extends the
heap: every address of the input heap still holds exactly its old node
(first conjunct), so the original template decodes to the very same tree
after the call and a second fill of that original template is unaffected
by the first call's output (second conjunct); and wherever a substitution
can occur — string, array and object roots — the returned root is a
freshly allocated address beyond the input heap, never the input
reference (remaining conjuncts). -/
theorem fill_never_mutates_input (fuel : Nat) (h : Heap) (ph v : String) (a : Nat)
    (h2 : Heap) (a2 : Nat)
    (heq : replaceInObjectH fuel h ph v a = some (h2, a2)) :
    (∀ i, i < h.length → h2[i]? = h[i]?)
    ∧ (∀ (fuel2 : Nat) (t : JVal), decodeH fuel2 h a = some t → decodeH fuel2 h2 a = some t)
    ∧ (∀ s, h[a]? = some (HNode.hstr s) → h.length ≤ a2)
    ∧ (∀ elems, h[a]? = some (HNode.harr elems) → h.length ≤ a2)
    ∧ (∀ fields, h[a]? = some (HNode.hobj fields) → h.length ≤ a2) := by
  obtain ⟨ext, hext⟩ := (heap_ext_all fuel).1 h ph v a h2 a2 heq
  refine ⟨?_, ?_, ?_, ?_, ?_⟩
  · intro i hi
    rw [hext]
    exact List.getElem?_append_left hi
  · intro fuel2 t ht
    rw [hext]
    exact (decode_extend_all fuel2).1 h ext a t ht
  · intro s hroot
    cases fuel with
    | zero => exact absurd heq (by simp [replaceInObjectH])
    | succ fuel =>
      simp only [replaceInObjectH, hroot] at heq
      simp only [Option.some.injEq, Prod.mk.injEq] at heq
      obtain ⟨_, ha⟩ := heq
      omega
  · intro elems hroot
    cases fuel with
    | zero => exact absurd heq (by simp [replaceInObjectH])
    | succ fuel =>
      simp only [replaceInObjectH, hroot] at heq
      split at heq
      · rename_i h3 elems2 hrr
        simp only [Option.some.injEq, Prod.mk.injEq] at heq
        obtain ⟨_, ha⟩ := heq
        obtain ⟨ext2, hext2⟩ := (heap_ext_all fuel).2.1 h ph v elems h3 elems2 hrr
        have hlen := congrArg List.length hext2
        simp only [List.length_append] at hlen
        omega
      · exact absurd heq (by simp)
  · intro fields hroot
    cases fuel with
    | zero => exact absurd heq (by simp [replaceInObjectH])
    | succ fuel =>
      simp only [replaceInObjectH, hroot] at heq
      split at heq
      · rename_i h3 fields2 hrr
        simp only [Option.some.injEq, Prod.mk.injEq] at heq
        obtain ⟨_, ha⟩ := heq
        obtain ⟨ext2, hext2⟩ := (heap_ext_all fuel).2.2 h ph v fields h3 fields2 hrr
        have hlen := congrArg List.length hext2
        simp only [List.length_append] at hlen
        omega
      · exact absurd heq (by simp)

/-- Witness for C9 on a one-node heap holding the template string: after
the fill, the old address still holds the old string, the original
template still decodes unchanged, and the result address is fresh. -/
theorem fill_never_mutates_input_witness :
    ([HNode.hstr "%p%", HNode.hstr "X"] : Heap)[0]? = ([HNode.hstr "%p%"] : Heap)[0]?
    ∧ decodeH 1 [HNode.hstr "%p%", HNode.hstr "X"] 0 = some (JVal.jstr "%p%")
    ∧ ([HNode.hstr "%p%"] : Heap).length ≤ 1 := by
  have happ : replaceInObjectH 2 [HNode.hstr "%p%"] ("%p%") ("X") 0
      = some ([HNode.hstr "%p%", HNode.hstr "X"], 1) := rfl
  have T := fill_never_mutates_input 2 [HNode.hstr "%p%"] ("%p%") ("X") 0
      [HNode.hstr "%p%", HNode.hstr "X"] 1 happ
  exact ⟨T.1 0 (by decide), T.2.1 1 (JVal.jstr "%p%") rfl, T.2.2.1 ("%p%") rfl⟩
